import Mathlib

/-!
Verification of the ERCOT estimated coincident-peak load dashboard
(`streamlit_ecp_schedule.py`).

The script's reproducible logic is embedded shallowly:

* a `Sample` is one row of the upstream dataset: the `interval_start_local`
  timestamp (modelled as `Nat`, a sortable key) plus the eight nullable
  numeric measurement columns (the merge logic never computes on the
  measurement values, so their numeric type is modelled as `Option Int`);
* `merge` embeds the pipeline at lines 104-106:
  `pd.concat([data_full, data_latest]).drop_duplicates("interval_start_local").sort_values("interval_start_local")`;
* `nextRefreshDelay` embeds the JavaScript refresh scheduler at lines 52-61;
* the `st.cache_data` TTL caching and error propagation around
  `fetch_full_history` / `fetch_latest` are modelled explicitly.
-/

namespace ErcotDashboard

/-- One row of the `ercot_estimated_coincident_peak_load` dataset: the
`interval_start_local` timestamp plus the eight measurement columns listed in
`cols` (lines 116-125 of the script).  All measurements are nullable. -/
structure Sample where
  interval_start_local : Nat
  operational_load : Option Int
  internal_generation : Option Int
  wholesale_storage_load : Option Int
  net_dc_tie_flow : Option Int
  dc_tie_exports : Option Int
  dc_tie_imports : Option Int
  estimated_cp_load : Option Int
  estimated_cp_load_using_gen : Option Int
deriving DecidableEq

/-- A Series is an ordered sequence of rows, the shallow embedding of a
pandas DataFrame with the columns above. -/
abbrev Series := List Sample

/-- Comparison of rows by the `interval_start_local` sort key. -/
def tsLE (a b : Sample) : Prop :=
  a.interval_start_local ≤ b.interval_start_local

instance : DecidableRel tsLE :=
  fun a b => Nat.decLe a.interval_start_local b.interval_start_local

instance : IsTotal Sample tsLE :=
  ⟨fun a b => Nat.le_total a.interval_start_local b.interval_start_local⟩

instance : IsTrans Sample tsLE :=
  ⟨fun _ _ _ hab hbc => Nat.le_trans hab hbc⟩

/-- Worker for `drop_duplicates`: traverse the rows in order, keeping a row
iff its timestamp has not been seen in an earlier row.  This is pandas
`DataFrame.drop_duplicates(subset, keep="first")`. -/
def dedupSeen : List Nat → Series → Series
  | _, [] => []
  | seen, x :: xs =>
    if x.interval_start_local ∈ seen then dedupSeen seen xs
    else x :: dedupSeen (x.interval_start_local :: seen) xs

/-- `df.drop_duplicates("interval_start_local")` (line 105): remove rows whose
timestamp already occurred earlier, keeping the first occurrence. -/
def drop_duplicates (df : Series) : Series :=
  dedupSeen [] df

/-- `df.sort_values("interval_start_local")` (line 106): sort the rows by
timestamp ascending.  pandas uses quicksort by default; any comparison sort
gives the same result once timestamps are distinct (as they are after
`drop_duplicates`), so the sort is modelled by insertion sort over `tsLE`. -/
def sort_values (df : Series) : Series :=
  df.insertionSort tsLE

/-- The merge pipeline of lines 104-106:
`pd.concat([data_full, data_latest]).drop_duplicates("interval_start_local").sort_values("interval_start_local")`. -/
def merge (history latest : Series) : Series :=
  sort_values (drop_duplicates (history ++ latest))

/-- Reference deduplication, written from the spec's words: remove duplicate
timestamps keeping the first occurrence — keep the head and drop every later
row carrying the head's timestamp, then continue. -/
def dedupSpec : Series → Series
  | [] => []
  | x :: xs =>
    x :: dedupSpec (xs.filter fun y =>
      y.interval_start_local ≠ x.interval_start_local)
termination_by df => df.length
decreasing_by
  simp only [List.length_cons]
  exact Nat.lt_succ_of_le (List.length_filter_le _ _)

/-- Reference merge, written from the spec's words: concatenate `history`
followed by `latest`, remove duplicate timestamps keeping the first occurrence
(preferring the `history` copy of a timestamp present in both), then sort the
result by timestamp ascending. -/
def merge_spec (history latest : Series) : Series :=
  List.insertionSort tsLE (dedupSpec (history ++ latest))

/-! ## Equivalence of `drop_duplicates` and the spec's deduplication -/

lemma dedupSpec_nil : dedupSpec [] = [] := by
  rw [dedupSpec]

lemma dedupSpec_cons (x : Sample) (xs : Series) :
    dedupSpec (x :: xs) =
      x :: dedupSpec (xs.filter fun y =>
        y.interval_start_local ≠ x.interval_start_local) := by
  rw [dedupSpec]

lemma dedupSeen_eq_dedupSpec_filter (l : Series) :
    ∀ seen : List Nat,
      dedupSeen seen l =
        dedupSpec (l.filter fun y => y.interval_start_local ∉ seen) := by
  induction l with
  | nil =>
    intro seen
    simp [dedupSeen, dedupSpec_nil]
  | cons x xs ih =>
    intro seen
    by_cases hx : x.interval_start_local ∈ seen
    · rw [List.filter_cons_of_neg (by simp [hx])]
      simp only [dedupSeen, if_pos hx]
      exact ih seen
    · rw [List.filter_cons_of_pos (by simp [hx]), dedupSpec_cons]
      simp only [dedupSeen, if_neg hx]
      congr 1
      rw [ih (x.interval_start_local :: seen), List.filter_filter]
      apply congrArg
      apply List.filter_congr
      intro y _
      by_cases h1 : y.interval_start_local ∈ seen <;>
        by_cases h2 : y.interval_start_local = x.interval_start_local <;>
          simp [h1, h2]

lemma drop_duplicates_eq_dedupSpec (l : Series) :
    drop_duplicates l = dedupSpec l := by
  rw [drop_duplicates, dedupSeen_eq_dedupSpec_filter]
  apply congrArg
  apply List.filter_eq_self.mpr
  intro a _
  simp

/-! ## Properties of the deduplicated list -/

lemma dedupSpec_sublist (l : Series) : (dedupSpec l).Sublist l := by
  induction l using dedupSpec.induct with
  | case1 =>
    rw [dedupSpec_nil]
  | case2 x xs ih =>
    rw [dedupSpec_cons]
    exact List.Sublist.cons₂ x (ih.trans (List.filter_sublist xs))

lemma mem_map_ts_dedupSpec {t : Nat} {l : Series} :
    t ∈ (dedupSpec l).map Sample.interval_start_local ↔
      t ∈ l.map Sample.interval_start_local := by
  constructor
  · intro hmem
    exact ((dedupSpec_sublist l).map Sample.interval_start_local).subset hmem
  · induction l using dedupSpec.induct with
    | case1 =>
      rw [dedupSpec_nil]
      exact fun hmem => hmem
    | case2 x xs ih =>
      rw [dedupSpec_cons]
      intro hmem
      simp only [List.map_cons, List.mem_cons] at hmem ⊢
      rcases hmem with hmem | hmem
      · exact Or.inl hmem
      · by_cases hx : t = x.interval_start_local
        · exact Or.inl hx
        · refine Or.inr (ih ?_)
          rcases List.mem_map.mp hmem with ⟨y, hy, hyt⟩
          refine List.mem_map.mpr ⟨y, List.mem_filter.mpr ⟨hy, ?_⟩, hyt⟩
          simp only [decide_eq_true_eq]
          intro hcontra
          exact hx (hyt ▸ hcontra)

lemma nodup_map_ts_dedupSpec (l : Series) :
    ((dedupSpec l).map Sample.interval_start_local).Nodup := by
  induction l using dedupSpec.induct with
  | case1 =>
    rw [dedupSpec_nil]
    exact List.nodup_nil
  | case2 x xs ih =>
    rw [dedupSpec_cons]
    simp only [List.map_cons, List.nodup_cons]
    refine ⟨?_, ih⟩
    intro hmem
    rcases List.mem_map.mp hmem with ⟨y, hy, hyt⟩
    have hy' := (dedupSpec_sublist _).subset hy
    have hne := (List.mem_filter.mp hy').2
    simp only [decide_eq_true_eq] at hne
    exact hne hyt

lemma find?_filter_of_imp {α : Type} {q p : α → Bool}
    (himp : ∀ a, p a = true → q a = true) :
    ∀ l : List α, (l.filter q).find? p = l.find? p := by
  intro l
  induction l with
  | nil => rfl
  | cons a l ih =>
    by_cases hq : q a = true
    · rw [List.filter_cons_of_pos hq]
      by_cases hp : p a = true
      · rw [List.find?_cons_of_pos _ hp, List.find?_cons_of_pos _ hp]
      · rw [List.find?_cons_of_neg _ hp, List.find?_cons_of_neg _ hp, ih]
    · have hp : ¬p a = true := fun hpa => hq (himp a hpa)
      rw [List.filter_cons_of_neg hq, List.find?_cons_of_neg _ hp, ih]

lemma dedupSpec_find? (l : Series) :
    ∀ x ∈ dedupSpec l,
      l.find? (fun s =>
          decide (s.interval_start_local = x.interval_start_local)) = some x := by
  induction l using dedupSpec.induct with
  | case1 =>
    rw [dedupSpec_nil]
    intro x hx
    exact absurd hx (List.not_mem_nil x)
  | case2 y ys ih =>
    rw [dedupSpec_cons]
    intro x hx
    rcases List.mem_cons.mp hx with rfl | hx'
    · exact List.find?_cons_of_pos _ (by simp)
    · have hmem := (dedupSpec_sublist _).subset hx'
      have hne := (List.mem_filter.mp hmem).2
      simp only [decide_eq_true_eq] at hne
      rw [List.find?_cons_of_neg _ (by simpa using fun hyx => hne (hyx.symm))]
      rw [← find?_filter_of_imp
        (q := fun z =>
          decide (z.interval_start_local ≠ y.interval_start_local))
        ?_ ys]
      · exact ih x hx'
      · intro a ha
        simp only [decide_eq_true_eq] at ha ⊢
        rw [ha]
        exact hne

lemma countP_ts_eq_one_of_nodup {t : Nat} :
    ∀ l : Series, (l.map Sample.interval_start_local).Nodup →
      t ∈ l.map Sample.interval_start_local →
      l.countP (fun s => decide (s.interval_start_local = t)) = 1 := by
  intro l
  induction l with
  | nil =>
    intro _ hmem
    exact absurd hmem (by simp)
  | cons x xs ih =>
    intro hnd hmem
    simp only [List.map_cons, List.nodup_cons] at hnd
    rw [List.countP_cons]
    by_cases hx : x.interval_start_local = t
    · have hzero :
          xs.countP (fun s => decide (s.interval_start_local = t)) = 0 := by
        rw [List.countP_eq_zero]
        intro a ha hpa
        simp only [decide_eq_true_eq] at hpa
        exact hnd.1 (List.mem_map.mpr ⟨a, ha, hpa.trans hx.symm⟩)
      simp [hzero, hx]
    · have hmem' : t ∈ xs.map Sample.interval_start_local := by
        simp only [List.map_cons, List.mem_cons] at hmem
        rcases hmem with hmem | hmem
        · exact absurd hmem.symm hx
        · exact hmem
      rw [ih hnd.2 hmem']
      simp [hx]

lemma dedupSpec_eq_self {l : Series}
    (hnd : (l.map Sample.interval_start_local).Nodup) : dedupSpec l = l := by
  induction l with
  | nil => exact dedupSpec_nil
  | cons x xs ih =>
    simp only [List.map_cons, List.nodup_cons] at hnd
    rw [dedupSpec_cons]
    have hfix :
        xs.filter (fun y =>
          decide (y.interval_start_local ≠ x.interval_start_local)) = xs := by
      apply List.filter_eq_self.mpr
      intro a ha
      simp only [decide_eq_true_eq]
      intro he
      exact hnd.1 (List.mem_map.mpr ⟨a, ha, he⟩)
    rw [hfix, ih hnd.2]

/-! ## Properties of the merge pipeline -/

lemma sort_values_perm (l : Series) : (sort_values l).Perm l :=
  List.perm_insertionSort tsLE l

lemma sort_values_sorted (l : Series) : (sort_values l).Sorted tsLE :=
  List.sorted_insertionSort tsLE l

lemma merge_perm_dedupSpec (h l : Series) :
    (merge h l).Perm (dedupSpec (h ++ l)) := by
  rw [merge, drop_duplicates_eq_dedupSpec]
  exact sort_values_perm _

lemma merge_sorted (h l : Series) : (merge h l).Sorted tsLE :=
  sort_values_sorted _

lemma merge_nodup_ts (h l : Series) :
    ((merge h l).map Sample.interval_start_local).Nodup :=
  ((merge_perm_dedupSpec h l).map _).nodup_iff.mpr (nodup_map_ts_dedupSpec _)

lemma mem_ts_merge {t : Nat} (h l : Series) :
    t ∈ (merge h l).map Sample.interval_start_local ↔
      t ∈ (h ++ l).map Sample.interval_start_local :=
  (((merge_perm_dedupSpec h l).map _).mem_iff).trans mem_map_ts_dedupSpec

lemma merge_mem_find? (h l : Series) {x : Sample} (hx : x ∈ merge h l) :
    (h ++ l).find? (fun s =>
        decide (s.interval_start_local = x.interval_start_local)) = some x :=
  dedupSpec_find? _ x ((merge_perm_dedupSpec h l).subset hx)

lemma merge_countP (h l : Series) {t : Nat}
    (ht : t ∈ (h ++ l).map Sample.interval_start_local) :
    (merge h l).countP (fun s => decide (s.interval_start_local = t)) = 1 := by
  rw [(merge_perm_dedupSpec h l).countP_eq]
  exact countP_ts_eq_one_of_nodup _ (nodup_map_ts_dedupSpec _)
    (mem_map_ts_dedupSpec.mpr ht)

lemma merge_merge_nil (h l : Series) : merge (merge h l) [] = merge h l := by
  rw [merge, List.append_nil, drop_duplicates_eq_dedupSpec,
    dedupSpec_eq_self (merge_nodup_ts h l)]
  show List.insertionSort tsLE (merge h l) = merge h l
  exact (merge_sorted h l).insertionSort_eq

/-! ## Refresh scheduler

The JavaScript embedded at lines 50-65:

```
const schedule = [1, 16, 31, 46];
const now = new Date();
let next = schedule.find(m => now.getMinutes() < m);
if (next === undefined) next = schedule[0] + 60;
let delta = (next - now.getMinutes()) * 60 - now.getSeconds();
if (delta < 0) delta += 3600;
setTimeout(() => window.location.reload(), delta * 1000);
```

`getMinutes` and `getSeconds` return naturals below 60. -/

/-- `const schedule = [1, 16, 31, 46];` (line 54). -/
def schedule : List Nat := [1, 16, 31, 46]

/-- `let next = schedule.find(m => now.getMinutes() < m); if (next === undefined)
next = schedule[0] + 60;` (lines 56-57). -/
def nextRefreshMinute (minutes : Nat) : Nat :=
  match schedule.find? (fun m => decide (minutes < m)) with
  | some m => m
  | none => schedule.headD 0 + 60

/-- `let delta = (next - now.getMinutes()) * 60 - now.getSeconds();` (line 58),
computed in JavaScript number arithmetic, hence over `Int`. -/
def rawDelta (minutes seconds : Nat) : Int :=
  ((nextRefreshMinute minutes : Int) - (minutes : Int)) * 60 - (seconds : Int)

/-- Lines 58-59: the delta in seconds until the next scheduled reload,
normalized by adding 3600 when negative. -/
def nextRefreshDelay (minutes seconds : Nat) : Int :=
  let delta := rawDelta minutes seconds
  if delta < 0 then delta + 3600 else delta

/-- Reference target minute, written from the spec's words: the smallest
schedule point strictly greater than `now`'s minute-of-hour; when none exists
in the current hour, the first schedule point of the next hour (add 60). -/
def specTargetMinute (minutes : Nat) : Nat :=
  match (schedule.filter (fun m => decide (minutes < m))).min? with
  | some m => m
  | none => 1 + 60

/-- Reference delay, written from the spec's words: whole seconds
`(targetMinute - nowMinute) * 60 - nowSecond`, normalized to non-negative by
adding 3600 seconds if the raw computation goes negative. -/
def specRefreshDelay (minutes seconds : Nat) : Int :=
  let raw : Int :=
    ((specTargetMinute minutes : Int) - (minutes : Int)) * 60 - (seconds : Int)
  if raw < 0 then raw + 3600 else raw

/-! ## Fetch caching layer

`fetch_full_history` and `fetch_latest` (lines 75-99) are wrapped in
`@st.cache_data(ttl=24 * 3600)` and `@st.cache_data(ttl=15 * 60)`; the body
issues one `client.get_dataset` request.  The decorator itself is framework
code, so its TTL semantics is modelled explicitly below. -/

/-- `ttl=24 * 3600` on `fetch_full_history` (line 75). -/
def historyTTL : Nat := 24 * 3600

/-- `ttl=15 * 60` on `fetch_latest` (line 88). -/
def latestTTL : Nat := 15 * 60

/-- Modelled from the spec: a Cache Entry of the `st.cache_data` layer (not in
src/, it is Streamlit framework code) — the cached Series together with the
instant it was fetched at; the TTL is supplied by the window class. -/
structure CacheEntry where
  value : Series
  fetchedAt : Nat
deriving DecidableEq

/-- Result of one call through the caching layer: the Series handed to the
caller, the cache entry after the call, and how many upstream requests the
call issued. -/
structure CacheCall where
  value : Series
  entry : Option CacheEntry
  fetchCount : Nat
deriving DecidableEq

/-- Modelled from the spec: the `st.cache_data(ttl=...)` decorator semantics
(not in src/, it is Streamlit framework code) applied to a fetch body
`upstream`.  Within the TTL window the cached Series is returned and no
upstream request is issued; once the TTL has elapsed (or on a first call) the
body runs, issuing exactly one upstream request, and the result replaces the
cache entry. -/
def cachedFetch (ttl : Nat) (upstream : Nat → Series) (now : Nat) :
    Option CacheEntry → CacheCall
  | some e =>
    if now < e.fetchedAt + ttl then ⟨e.value, some e, 0⟩
    else ⟨upstream now, some ⟨upstream now, now⟩, 1⟩
  | none => ⟨upstream now, some ⟨upstream now, now⟩, 1⟩

/-- Upstream failures of `client.get_dataset` (network error, malformed
response). -/
inductive FetchError where
  | network : FetchError
  | malformed : FetchError
deriving DecidableEq

/-- Modelled from the spec: the `st.cache_data` layer over a fallible fetch
body (the decorator is framework code not in src/; the bodies of
`fetch_full_history` and `fetch_latest` wrap `client.get_dataset` in no
exception handler, lines 75-99).  A failure of the upstream request
propagates: the call fails with the `FetchError`, no stale entry is returned
even when an expired one is present, and the cache entry is not replaced. -/
def cachedFetchE (ttl : Nat) (upstream : Nat → Except FetchError Series)
    (now : Nat) : Option CacheEntry → Except FetchError CacheCall
  | some e =>
    if now < e.fetchedAt + ttl then .ok ⟨e.value, some e, 0⟩
    else
      match upstream now with
      | .ok v => .ok ⟨v, some ⟨v, now⟩, 1⟩
      | .error err => .error err
  | none =>
    match upstream now with
    | .ok v => .ok ⟨v, some ⟨v, now⟩, 1⟩
    | .error err => .error err

/-- Modelled from the spec: one render cycle (lines 102-106; the Streamlit
render loop itself is framework code not in src/): fetch the full history and
the latest window through their caches, then merge; an error in either fetch
fails the whole cycle, fabricating no data. -/
def renderCycle (histUp latestUp : Nat → Except FetchError Series) (now : Nat)
    (histEntry latestEntry : Option CacheEntry) : Except FetchError Series :=
  match cachedFetchE historyTTL histUp now histEntry with
  | .error err => .error err
  | .ok rh =>
    match cachedFetchE latestTTL latestUp now latestEntry with
    | .error err => .error err
    | .ok rl => .ok (merge rh.value rl.value)

/-! ## Scheduler facts established by evaluation over all minute/second pairs -/

lemma nextRefreshMinute_eq_spec :
    ∀ m : Fin 60, nextRefreshMinute m.val = specTargetMinute m.val := by
  decide

lemma rawDelta_bounds :
    ∀ m s : Fin 60, 1 ≤ rawDelta m.val s.val ∧ rawDelta m.val s.val ≤ 900 := by
  decide

/-- A row with the given timestamp and all measurements null; used to
instantiate universally quantified theorems at concrete inputs. -/
def sampleAt (t : Nat) : Sample :=
  ⟨t, none, none, none, none, none, none, none, none⟩

/-! ## The claims -/

/-- Claim C1: for every pair of input Series (history, latest),
`merge history latest` equals the reference definition: the concatenation of
`history` followed by `latest`, with duplicate timestamps removed keeping the
first occurrence (so the history copy of any timestamp present in both inputs
is preferred), then sorted by timestamp ascending. -/
theorem claimC1_merge_matches_reference (history latest : Series) :
    merge history latest = merge_spec history latest := by
  rw [merge, merge_spec, drop_duplicates_eq_dedupSpec]
  rfl

/-- Claim C2: the refresh scheduler selects as target the smallest schedule
point in {1, 16, 31, 46} strictly greater than `now`'s minute-of-hour (61 when
none exists in the current hour) and returns
`(targetMinute - nowMinute) * 60 - nowSecond` seconds, normalized by adding
3600 if negative; in particular 00:00:30 yields 30 s, 00:15:59 yields 1 s and
00:46:00 yields 900 s. -/
theorem claimC2_scheduler_matches_reference :
    (∀ minutes seconds : Nat, minutes < 60 → seconds < 60 →
      nextRefreshDelay minutes seconds = specRefreshDelay minutes seconds) ∧
    nextRefreshDelay 0 30 = 30 ∧
    nextRefreshDelay 15 59 = 1 ∧
    nextRefreshDelay 46 0 = 900 := by
  refine ⟨?_, by decide, by decide, by decide⟩
  intro minutes seconds hm _hs
  have hmin : nextRefreshMinute minutes = specTargetMinute minutes :=
    nextRefreshMinute_eq_spec ⟨minutes, hm⟩
  unfold nextRefreshDelay rawDelta specRefreshDelay
  rw [hmin]

theorem claimC2_witness :
    nextRefreshDelay 0 30 = specRefreshDelay 0 30 :=
  claimC2_scheduler_matches_reference.1 0 30 (by decide) (by decide)

/-- Claim C3: for every pair of input Series `h` and `l` and every timestamp
`t` present in both, `merge h l` contains exactly one Sample at `t`, and that
Sample's measurement values equal `h`'s values at `t` (its first row carrying
`t`, selected by `find?`). -/
theorem claimC3_history_wins_on_overlap (h l : Series) (t : Nat)
    (hth : t ∈ h.map Sample.interval_start_local)
    (_htl : t ∈ l.map Sample.interval_start_local) :
    (merge h l).countP (fun s => decide (s.interval_start_local = t)) = 1 ∧
    ∃ x, h.find? (fun s => decide (s.interval_start_local = t)) = some x ∧
      x.interval_start_local = t ∧
      ∀ y ∈ merge h l, y.interval_start_local = t → y = x := by
  have hth' : t ∈ (h ++ l).map Sample.interval_start_local := by
    rw [List.map_append, List.mem_append]
    exact Or.inl hth
  refine ⟨merge_countP h l hth', ?_⟩
  obtain ⟨s, hs, hst⟩ := List.mem_map.mp hth
  have hsome :
      (h.find? (fun s => decide (s.interval_start_local = t))).isSome := by
    rw [List.find?_isSome]
    exact ⟨s, hs, by simp [hst]⟩
  obtain ⟨x, hx⟩ := Option.isSome_iff_exists.mp hsome
  have hxt : x.interval_start_local = t := by
    have := List.find?_some hx
    simpa using this
  refine ⟨x, hx, hxt, ?_⟩
  intro y hy hyt
  have hfind := merge_mem_find? h l hy
  rw [hyt] at hfind
  rw [List.find?_append, hx] at hfind
  simpa using hfind.symm

theorem claimC3_witness :
    (merge [sampleAt 5] [sampleAt 5]).countP
        (fun s => decide (s.interval_start_local = 5)) = 1 :=
  (claimC3_history_wins_on_overlap [sampleAt 5] [sampleAt 5] 5
    (by decide) (by decide)).1

/-- Claim C4: for every pair of input Series, in any input order, the output
of `merge` is non-decreasing by timestamp and no two Samples in the output
share a timestamp. -/
theorem claimC4_merge_sorted_and_unique (h l : Series) :
    (merge h l).Sorted tsLE ∧
    ((merge h l).map Sample.interval_start_local).Nodup :=
  ⟨merge_sorted h l, merge_nodup_ts h l⟩

/-- Claim C5: merging the result of `merge h l` with the empty Series yields
the same Series again. -/
theorem claimC5_merge_idempotent (h l : Series) :
    merge (merge h l) [] = merge h l :=
  merge_merge_nil h l

/-- Claim C6 counterexample: `merge [] latest` does not return `latest` for
every Series `latest` — an out-of-order `latest` is re-sorted, so the claim's
third conjunct fails as stated (a duplicated timestamp in `latest` likewise
gets collapsed). -/
theorem claimC6_counterexample :
    merge [] [sampleAt 1, sampleAt 0] ≠ [sampleAt 1, sampleAt 0] := by
  decide

/-- Claim C6, amended: `merge [] [] = []`; `merge h []` is `h` deduplicated
(keeping first occurrences) and sorted; `merge [] l = l` for every `l` that is
itself sorted with pairwise-distinct timestamps (the claim as stated fails for
unsorted or duplicated `latest`, which the pipeline re-sorts and collapses);
and every timestamp appearing in `latest` is retained in the output. -/
theorem claimC6_empty_input_behaviour :
    merge [] [] = [] ∧
    (∀ h : Series, merge h [] = sort_values (dedupSpec h)) ∧
    (∀ l : Series, l.Sorted tsLE →
      (l.map Sample.interval_start_local).Nodup → merge [] l = l) ∧
    (∀ h l : Series, ∀ t : Nat, t ∈ l.map Sample.interval_start_local →
      t ∈ (merge h l).map Sample.interval_start_local) := by
  refine ⟨rfl, ?_, ?_, ?_⟩
  · intro h
    rw [merge, List.append_nil, drop_duplicates_eq_dedupSpec]
  · intro l hsort hnd
    rw [merge, List.nil_append, drop_duplicates_eq_dedupSpec,
      dedupSpec_eq_self hnd]
    show List.insertionSort tsLE l = l
    exact hsort.insertionSort_eq
  · intro h l t ht
    refine (mem_ts_merge h l).mpr ?_
    rw [List.map_append, List.mem_append]
    exact Or.inr ht

theorem claimC6_witness :
    merge [] [sampleAt 0, sampleAt 1] = [sampleAt 0, sampleAt 1] :=
  claimC6_empty_input_behaviour.2.2.1 [sampleAt 0, sampleAt 1]
    (by decide) (by decide)

/-- Claim C7: `merge` never raises an error — it is a total function, and
duplicate timestamps and out-of-order input are resolved deterministically by
the first-occurrence rule: every row of the output is the first row of the
concatenated input carrying its timestamp, and exactly the input timestamps
survive. -/
theorem claimC7_merge_total_deterministic (h l : Series) :
    (∀ x ∈ merge h l,
      (h ++ l).find? (fun s =>
        decide (s.interval_start_local = x.interval_start_local)) = some x) ∧
    (∀ t : Nat, t ∈ (merge h l).map Sample.interval_start_local ↔
      t ∈ (h ++ l).map Sample.interval_start_local) :=
  ⟨fun _ hx => merge_mem_find? h l hx, fun _ => mem_ts_merge h l⟩

theorem claimC7_witness :
    ([sampleAt 0] ++ [sampleAt 0]).find? (fun s =>
      decide (s.interval_start_local = (sampleAt 0).interval_start_local)) =
        some (sampleAt 0) :=
  (claimC7_merge_total_deterministic [sampleAt 0] [sampleAt 0]).1
    (sampleAt 0) (by decide)

/-- Claim C8: for each window class (history with 24-hour TTL, latest with
15-minute TTL), a second call within the TTL returns the identical cached
Series without issuing a new upstream request, and the first call after the
TTL elapses triggers exactly one new upstream fetch that replaces the cache
entry. -/
theorem claimC8_cache_ttl (ttl : Nat)
    (_httl : ttl = historyTTL ∨ ttl = latestTTL)
    (upstream : Nat → Series) (t0 t1 t2 : Nat)
    (h1 : t1 < t0 + ttl) (h2 : t0 + ttl ≤ t2) :
    cachedFetch ttl upstream t0 none =
      ⟨upstream t0, some ⟨upstream t0, t0⟩, 1⟩ ∧
    cachedFetch ttl upstream t1 (cachedFetch ttl upstream t0 none).entry =
      ⟨upstream t0, some ⟨upstream t0, t0⟩, 0⟩ ∧
    cachedFetch ttl upstream t2 (cachedFetch ttl upstream t0 none).entry =
      ⟨upstream t2, some ⟨upstream t2, t2⟩, 1⟩ := by
  refine ⟨rfl, ?_, ?_⟩
  · show cachedFetch ttl upstream t1 (some ⟨upstream t0, t0⟩) = _
    simp only [cachedFetch]
    rw [if_pos h1]
  · show cachedFetch ttl upstream t2 (some ⟨upstream t0, t0⟩) = _
    simp only [cachedFetch]
    rw [if_neg (by omega)]

theorem claimC8_witness :
    cachedFetch historyTTL (fun _ => []) 1
        (cachedFetch historyTTL (fun _ => []) 0 none).entry =
      ⟨[], some ⟨[], 0⟩, 0⟩ :=
  (claimC8_cache_ttl historyTTL (Or.inl rfl) (fun _ => []) 0 1 historyTTL
    (by decide) (by decide)).2.1

/-- Claim C9: whenever an upstream request fails, the fetch call fails with a
`FetchError` — on an empty cache and equally on an expired entry (no stale
fallback) — and the whole render cycle fails for that cycle, whether the
history fetch or the latest fetch is the one that failed. -/
theorem claimC9_fetch_failure_propagates
    (up latestUp : Nat → Except FetchError Series) (now ttl : Nat)
    (err : FetchError) (e : CacheEntry) (latestEntry : Option CacheEntry)
    (hup : up now = .error err) (hexp : e.fetchedAt + ttl ≤ now) :
    cachedFetchE ttl up now none = .error err ∧
    cachedFetchE ttl up now (some e) = .error err ∧
    renderCycle up latestUp now none latestEntry = .error err ∧
    (∀ histUp : Nat → Except FetchError Series, ∀ hc : Option CacheEntry,
      ∀ rh : CacheCall, cachedFetchE historyTTL histUp now hc = .ok rh →
        renderCycle histUp up now hc none = .error err) := by
  have hnotlt : ¬ now < e.fetchedAt + ttl := by omega
  refine ⟨?_, ?_, ?_, ?_⟩
  · simp [cachedFetchE, hup]
  · simp [cachedFetchE, hnotlt, hup]
  · simp [renderCycle, cachedFetchE, hup]
  · intro histUp hc rh hok
    simp only [renderCycle, hok]
    simp [cachedFetchE, hup]

theorem claimC9_witness :
    cachedFetchE latestTTL (fun _ => Except.error FetchError.network) 900
        (some ⟨[], 0⟩) = Except.error FetchError.network :=
  (claimC9_fetch_failure_propagates
    (fun _ => Except.error FetchError.network)
    (fun _ => Except.error FetchError.network) 900 latestTTL
    FetchError.network ⟨[], 0⟩ none rfl (by decide)).2.1

/-- Claim C10: for every instant, the scheduler's raw delta
`(target - nowMinute) * 60 - nowSecond` lies between 1 and 900 seconds
inclusive, so it is never negative and the normalization branch adding 3600
is unreachable: the returned delay equals the raw delta. -/
theorem claimC10_raw_delta_bounds (minutes seconds : Nat)
    (hm : minutes < 60) (hs : seconds < 60) :
    1 ≤ rawDelta minutes seconds ∧ rawDelta minutes seconds ≤ 900 ∧
    nextRefreshDelay minutes seconds = rawDelta minutes seconds := by
  have hb : 1 ≤ rawDelta minutes seconds ∧ rawDelta minutes seconds ≤ 900 :=
    rawDelta_bounds ⟨minutes, hm⟩ ⟨seconds, hs⟩
  refine ⟨hb.1, hb.2, ?_⟩
  have hneg : ¬ rawDelta minutes seconds < 0 := by omega
  unfold nextRefreshDelay
  simp [hneg]

theorem claimC10_witness :
    1 ≤ rawDelta 0 30 ∧ rawDelta 0 30 ≤ 900 ∧
    nextRefreshDelay 0 30 = rawDelta 0 30 :=
  claimC10_raw_delta_bounds 0 30 (by decide) (by decide)

end ErcotDashboard
